import Mathlib

/-!
Shallow embedding of the `Token` Solidity contract from the Hardhat tutorial
repository (contracts/Token.sol as given in the repository's README):

  contract Token {
      uint public totalSupply = 1000;
      mapping(address => uint) public balances;
      constructor() { balances[msg.sender] = totalSupply; }
      function transfer(address to, uint amount) external {
          require(balances[msg.sender] >= amount, "Not enough tokens!");
          balances[msg.sender] -= amount;
          balances[to] += amount;
      }
      function balanceOf(address account) public view returns (uint) {
          return balances[account];
      }
  }

Addresses are opaque comparable identifiers; we embed them as `Nat`.
Balances are `uint256`: non-negative integers below `2 ^ 256`; Solidity
`^0.8.0` uses checked arithmetic, so an addition that would exceed the
`uint256` range reverts (we surface it as a distinct `overflow` error and
prove it is unreachable).  A reverted call rolls the state back, which we
embed by `transfer` returning `Except`: on error the caller keeps the old
state (`applyTransfer`).  The storage mapping defaults to zero for absent
keys; we embed it as an association list read through `lookupBal`.
-/

/-- Account identity: an opaque, comparable, unique token. -/
abbrev Address := Nat

/-- One past the largest representable `uint256` value. -/
def UINT_LIMIT : Nat := 2 ^ 256

/-- The fixed configured constant: `uint public totalSupply = 1000;`. -/
def INITIAL_SUPPLY : Nat := 1000

/-- Read of the storage mapping `balances[a]`: the first stored entry for
`a`, or the Solidity default `0` when `a` has no entry. -/
def lookupBal : List (Address × Nat) → Address → Nat
  | [], _ => 0
  | (k, v) :: rest, a => if k = a then v else lookupBal rest a

/-- Write to the storage mapping `balances[a] = v`: update the entry for
`a` if present, otherwise append a fresh entry. -/
def setBal : List (Address × Nat) → Address → Nat → List (Address × Nat)
  | [], a, v => [(a, v)]
  | (k, w) :: rest, a, v =>
      if k = a then (a, v) :: rest else (k, w) :: setBal rest a v

/-- Sum of all stored balances of the mapping. -/
def sumBal (bs : List (Address × Nat)) : Nat :=
  (bs.map Prod.snd).sum

/-- Contract state: `uint public totalSupply` and
`mapping(address => uint) public balances`. -/
structure Token where
  totalSupply : Nat
  balances : List (Address × Nat)
deriving Repr, DecidableEq

/-- The constructor: `totalSupply = 1000` (field initializer) and
`balances[msg.sender] = totalSupply;`. -/
def Token.deploy (sender : Address) : Token :=
  { totalSupply := INITIAL_SUPPLY
    balances := setBal [] sender INITIAL_SUPPLY }

/-- Reverts of `transfer`: the `require(balances[msg.sender] >= amount,
"Not enough tokens!")` failure, and the Solidity 0.8 checked-arithmetic
panic on `balances[to] += amount` overflowing `uint256`. -/
inductive TransferError where
  | insufficientBalance : TransferError
  | overflow : TransferError
deriving Repr, DecidableEq

deriving instance DecidableEq for Except

/--
Embeds `function transfer(address to, uint amount) external`:
  `require(balances[msg.sender] >= amount, "Not enough tokens!");`
  `balances[msg.sender] -= amount;`  (cannot underflow given the require)
  `balances[to] += amount;`          (checked: reverts on uint256 overflow)
`sender` is `msg.sender`.  An `Except.error` is a revert.
-/
def Token.transfer (t : Token) (sender toAddr : Address) (amount : Nat) :
    Except TransferError Token :=
  if lookupBal t.balances sender < amount then
    .error .insufficientBalance
  else
    let bs1 := setBal t.balances sender (lookupBal t.balances sender - amount)
    if UINT_LIMIT ≤ lookupBal bs1 toAddr + amount then
      .error .overflow
    else
      .ok { t with balances := setBal bs1 toAddr (lookupBal bs1 toAddr + amount) }

/-- Embeds `function balanceOf(address account) public view returns (uint)`:
`return balances[account];`. -/
def Token.balanceOf (t : Token) (account : Address) : Nat :=
  lookupBal t.balances account

/-- EVM revert semantics: a failed call leaves the caller with the
pre-call state, a successful call with the new state. -/
def applyTransfer (t : Token) (sender toAddr : Address) (amount : Nat) : Token :=
  match t.transfer sender toAddr amount with
  | .ok t' => t'
  | .error _ => t

/-- States reachable from construction by sequences of successful
`transfer` calls. -/
inductive Reachable : Token → Prop where
  | deploy (sender : Address) : Reachable (Token.deploy sender)
  | step {t t' : Token} (sender toAddr : Address) (amount : Nat) :
      Reachable t → t.transfer sender toAddr amount = .ok t' → Reachable t'

/- ### Basic lemmas about the storage map -/

theorem lookupBal_setBal_same (bs : List (Address × Nat)) (a : Address)
    (v : Nat) : lookupBal (setBal bs a v) a = v := by
  induction bs with
  | nil => simp [setBal, lookupBal]
  | cons p rest ih =>
      obtain ⟨k, w⟩ := p
      by_cases hk : k = a
      · simp [setBal, hk, lookupBal]
      · simp [setBal, hk, lookupBal, ih]

theorem lookupBal_setBal_other (bs : List (Address × Nat)) (a b : Address)
    (v : Nat) (hab : a ≠ b) :
    lookupBal (setBal bs a v) b = lookupBal bs b := by
  induction bs with
  | nil => simp [setBal, lookupBal, hab]
  | cons p rest ih =>
      obtain ⟨k, w⟩ := p
      by_cases hk : k = a
      · subst hk
        simp [setBal, lookupBal, hab]
      · simp [setBal, hk, lookupBal, ih]

theorem sumBal_nil : sumBal [] = 0 := rfl

theorem sumBal_cons (k : Address) (w : Nat) (rest : List (Address × Nat)) :
    sumBal ((k, w) :: rest) = w + sumBal rest := by
  simp [sumBal]

theorem sumBal_setBal (bs : List (Address × Nat)) (a : Address) (v : Nat) :
    sumBal (setBal bs a v) + lookupBal bs a = sumBal bs + v := by
  induction bs with
  | nil => simp [setBal, sumBal_cons, sumBal_nil, lookupBal]
  | cons p rest ih =>
      obtain ⟨k, w⟩ := p
      by_cases hk : k = a
      · subst hk
        simp [setBal, sumBal_cons, lookupBal]
        ring
      · simp only [setBal, hk, if_false, sumBal_cons, lookupBal, if_neg,
          reduceIte]
        omega

theorem lookupBal_le_sumBal (bs : List (Address × Nat)) (a : Address) :
    lookupBal bs a ≤ sumBal bs := by
  induction bs with
  | nil => simp [lookupBal, sumBal_nil]
  | cons p rest ih =>
      obtain ⟨k, w⟩ := p
      rw [sumBal_cons]
      simp only [lookupBal]
      by_cases hk : k = a
      · rw [if_pos hk]
        omega
      · rw [if_neg hk]
        omega

theorem keys_setBal (bs : List (Address × Nat)) (a : Address) (v : Nat) :
    (setBal bs a v).map Prod.fst =
      if a ∈ bs.map Prod.fst then bs.map Prod.fst
      else bs.map Prod.fst ++ [a] := by
  induction bs with
  | nil => simp [setBal]
  | cons p rest ih =>
      obtain ⟨k, w⟩ := p
      by_cases hk : k = a
      · subst hk
        simp [setBal]
      · have hka : ¬ a = k := fun h => hk h.symm
        simp [setBal, hk, ih, hka]
        by_cases hmem : a ∈ rest.map Prod.fst <;> simp [hmem, hka]

theorem nodup_keys_setBal (bs : List (Address × Nat)) (a : Address) (v : Nat)
    (h : (bs.map Prod.fst).Nodup) : ((setBal bs a v).map Prod.fst).Nodup := by
  rw [keys_setBal]
  by_cases hmem : a ∈ bs.map Prod.fst
  · simpa [hmem] using h
  · simp only [hmem, if_false, reduceIte]
    refine List.Nodup.append h (List.nodup_singleton a) ?_
    intro x hx hxa
    have hxe : x = a := by simpa using hxa
    subst hxe
    exact hmem hx

theorem lookupBal_eq_zero_of_not_mem (bs : List (Address × Nat)) (a : Address)
    (h : a ∉ bs.map Prod.fst) : lookupBal bs a = 0 := by
  induction bs with
  | nil => rfl
  | cons p rest ih =>
      obtain ⟨k, w⟩ := p
      simp only [List.map_cons, List.mem_cons] at h
      push_neg at h
      simp only [lookupBal]
      rw [if_neg (fun hk => h.1 hk.symm)]
      exact ih h.2

theorem lookupBal_eq_of_mem_nodup (bs : List (Address × Nat)) (a : Address)
    (v : Nat) (hmem : (a, v) ∈ bs) (hnd : (bs.map Prod.fst).Nodup) :
    lookupBal bs a = v := by
  induction bs with
  | nil => cases hmem
  | cons p rest ih =>
      obtain ⟨k, w⟩ := p
      simp only [List.map_cons, List.nodup_cons] at hnd
      rcases List.mem_cons.mp hmem with heq | htail
      · simp only [Prod.mk.injEq] at heq
        obtain ⟨rfl, rfl⟩ := heq
        simp [lookupBal]
      · have hka : k ≠ a := by
          intro hk
          subst hk
          exact hnd.1 (List.mem_map.mpr ⟨(k, v), htail, rfl⟩)
        simp only [lookupBal, if_neg hka]
        exact ih htail hnd.2

/- ### Characterisation of `transfer` -/

theorem transfer_eq_ok_iff (t t' : Token) (s b : Address) (amt : Nat) :
    t.transfer s b amt = .ok t' ↔
      amt ≤ lookupBal t.balances s ∧
      lookupBal (setBal t.balances s (lookupBal t.balances s - amt)) b + amt
        < UINT_LIMIT ∧
      t' = { t with balances := setBal (setBal t.balances s (lookupBal t.balances s - amt)) b (lookupBal (setBal t.balances s (lookupBal t.balances s - amt)) b + amt) } := by
  simp only [Token.transfer]
  split_ifs with h1 h2
  · constructor
    · intro h
      exact absurd h (by simp)
    · rintro ⟨hle, -, -⟩
      omega
  · constructor
    · intro h
      exact absurd h (by simp)
    · rintro ⟨-, hlt, -⟩
      omega
  · constructor
    · intro h
      injection h with h
      exact ⟨by omega, by omega, h.symm⟩
    · rintro ⟨-, -, rfl⟩
      rfl

theorem transfer_eq_error_iff (t : Token) (s b : Address) (amt : Nat)
    (hov : lookupBal (setBal t.balances s (lookupBal t.balances s - amt)) b
      + amt < UINT_LIMIT) :
    (∃ e, t.transfer s b amt = .error e) ↔ lookupBal t.balances s < amt := by
  simp only [Token.transfer]
  split_ifs with h1 h2
  · simp [h1]
  · omega
  · simp [h1]

theorem transfer_error_insufficient (t : Token) (s b : Address) (amt : Nat)
    (e : TransferError) (h : t.transfer s b amt = .error e)
    (hov : lookupBal (setBal t.balances s (lookupBal t.balances s - amt)) b
      + amt < UINT_LIMIT) :
    e = TransferError.insufficientBalance ∧ lookupBal t.balances s < amt := by
  revert h
  simp only [Token.transfer]
  split_ifs with h1 h2
  · intro h
    injection h with h
    exact ⟨h.symm, h1⟩
  · omega
  · intro h
    exact absurd h (by simp)

theorem totalSupply_transfer_ok (t t' : Token) (s b : Address) (amt : Nat)
    (h : t.transfer s b amt = .ok t') : t'.totalSupply = t.totalSupply := by
  obtain ⟨-, -, rfl⟩ := (transfer_eq_ok_iff t t' s b amt).mp h
  rfl

theorem sumBal_transfer_ok (t t' : Token) (s b : Address) (amt : Nat)
    (h : t.transfer s b amt = .ok t') :
    sumBal t'.balances = sumBal t.balances := by
  obtain ⟨hle, -, rfl⟩ := (transfer_eq_ok_iff t t' s b amt).mp h
  have hs := lookupBal_le_sumBal t.balances s
  have h1 := sumBal_setBal t.balances s (lookupBal t.balances s - amt)
  have h2 := sumBal_setBal
    (setBal t.balances s (lookupBal t.balances s - amt)) b
    (lookupBal (setBal t.balances s (lookupBal t.balances s - amt)) b + amt)
  simp only [Token.balances]
  omega

theorem nodup_transfer_ok (t t' : Token) (s b : Address) (amt : Nat)
    (h : t.transfer s b amt = .ok t')
    (hnd : (t.balances.map Prod.fst).Nodup) :
    (t'.balances.map Prod.fst).Nodup := by
  obtain ⟨-, -, rfl⟩ := (transfer_eq_ok_iff t t' s b amt).mp h
  exact nodup_keys_setBal _ b _ (nodup_keys_setBal _ s _ hnd)

/- ### The reachability invariant -/

theorem reachable_inv (t : Token) (h : Reachable t) :
    t.totalSupply = INITIAL_SUPPLY ∧ sumBal t.balances = INITIAL_SUPPLY ∧
      (t.balances.map Prod.fst).Nodup := by
  induction h with
  | deploy sender =>
      refine ⟨rfl, ?_, ?_⟩
      · simp [Token.deploy, setBal, sumBal_cons, sumBal_nil]
      · simp [Token.deploy, setBal]
  | step sender toAddr amount hr hok ih =>
      obtain ⟨hts, hsum, hnd⟩ := ih
      exact ⟨(totalSupply_transfer_ok _ _ _ _ _ hok).trans hts,
        (sumBal_transfer_ok _ _ _ _ _ hok).trans hsum,
        nodup_transfer_ok _ _ _ _ _ hok hnd⟩

theorem no_overflow_of_sum (t : Token) (s b : Address) (amt : Nat)
    (hle : amt ≤ lookupBal t.balances s)
    (hsum : sumBal t.balances < UINT_LIMIT) :
    lookupBal (setBal t.balances s (lookupBal t.balances s - amt)) b + amt
      < UINT_LIMIT := by
  have h1 := sumBal_setBal t.balances s (lookupBal t.balances s - amt)
  have h2 := lookupBal_le_sumBal
    (setBal t.balances s (lookupBal t.balances s - amt)) b
  have h3 := lookupBal_le_sumBal t.balances s
  omega

theorem balanceOf_after_ok (t t' : Token) (s b : Address) (amt : Nat)
    (h : t.transfer s b amt = .ok t') (c : Address) :
    t'.balanceOf c =
      if c = b then
        (if b = s then t.balanceOf s - amt else t.balanceOf b) + amt
      else if c = s then t.balanceOf s - amt
      else t.balanceOf c := by
  obtain ⟨hle, -, rfl⟩ := (transfer_eq_ok_iff t t' s b amt).mp h
  simp only [Token.balanceOf]
  by_cases hcb : c = b
  · subst hcb
    rw [if_pos rfl, lookupBal_setBal_same]
    by_cases hbs : c = s
    · subst hbs
      rw [if_pos rfl, lookupBal_setBal_same]
    · rw [if_neg hbs, lookupBal_setBal_other _ s c _ (fun hh => hbs hh.symm)]
  · rw [if_neg hcb, lookupBal_setBal_other _ b c _ (fun hh => hcb hh.symm)]
    by_cases hcs : c = s
    · subst hcs
      rw [if_pos rfl, lookupBal_setBal_same]
    · rw [if_neg hcs, lookupBal_setBal_other _ s c _ (fun hh => hcs hh.symm)]

theorem transfer_ok_intro (t : Token) (s b : Address) (amt : Nat)
    (hle : amt ≤ lookupBal t.balances s)
    (hsum : sumBal t.balances < UINT_LIMIT) :
    ∃ t', t.transfer s b amt = .ok t' :=
  ⟨_, (transfer_eq_ok_iff t _ s b amt).mpr
    ⟨hle, no_overflow_of_sum t s b amt hle hsum, rfl⟩⟩

theorem applyTransfer_of_error (t : Token) (s b : Address) (amt : Nat)
    (e : TransferError) (h : t.transfer s b amt = .error e) :
    applyTransfer t s b amt = t := by
  simp [applyTransfer, h]

theorem transfer_first_check (t : Token) (s b : Address) (amt : Nat)
    (hlt : lookupBal t.balances s < amt) :
    t.transfer s b amt = .error .insufficientBalance := by
  simp [Token.transfer, hlt]

theorem reachable_sum_lt (t : Token) (h : Reachable t) :
    sumBal t.balances < UINT_LIMIT := by
  have hs := (reachable_inv t h).2.1
  rw [hs]
  decide

/- ### Claim theorems -/

/-- C1: for every ledger created by construction and every sequence of
successful transfer calls, the sum of all stored balances equals the
`totalSupply` fixed at construction; the conservation invariant holds
after every operation. -/
theorem token_conservation (t : Token) (h : Reachable t) :
    sumBal t.balances = t.totalSupply ∧ t.totalSupply = INITIAL_SUPPLY := by
  obtain ⟨hts, hsum, -⟩ := reachable_inv t h
  exact ⟨hsum.trans hts.symm, hts⟩

theorem token_conservation_witness :
    sumBal (Token.deploy 7).balances = (Token.deploy 7).totalSupply ∧
      (Token.deploy 7).totalSupply = INITIAL_SUPPLY :=
  token_conservation (Token.deploy 7) (Reachable.deploy 7)

/-- C2: in every reachable state, `transfer` fails if and only if
`balanceOf from < amount`; the only error is `InsufficientBalance`, and a
failed call leaves every balance (not just those of `from` and `to`)
unchanged. -/
theorem transfer_failure_spec (t : Token) (h : Reachable t)
    (s b : Address) (amt : Nat) :
    ((∃ e, t.transfer s b amt = Except.error e) ↔ t.balanceOf s < amt) ∧
    (∀ e, t.transfer s b amt = Except.error e →
      e = TransferError.insufficientBalance ∧
      ∀ c, (applyTransfer t s b amt).balanceOf c = t.balanceOf c) := by
  have hsum := reachable_sum_lt t h
  by_cases hlt : lookupBal t.balances s < amt
  · have herr := transfer_first_check t s b amt hlt
    refine ⟨⟨fun _ => hlt, fun _ => ⟨_, herr⟩⟩, ?_⟩
    intro e he
    rw [herr] at he
    injection he with he
    refine ⟨he.symm, ?_⟩
    intro c
    rw [applyTransfer_of_error t s b amt TransferError.insufficientBalance herr]
  · push_neg at hlt
    obtain ⟨t', hok⟩ := transfer_ok_intro t s b amt hlt hsum
    constructor
    · constructor
      · rintro ⟨e, he⟩
        rw [hok] at he
        exact Except.noConfusion he
      · intro hcon
        have : t.balanceOf s < amt := hcon
        simp only [Token.balanceOf] at this
        omega
    · intro e he
      rw [hok] at he
      exact Except.noConfusion he

theorem transfer_failure_spec_witness :
    ((∃ e, (Token.deploy 0).transfer 1 2 5 = Except.error e) ↔
      (Token.deploy 0).balanceOf 1 < 5) ∧
    (∀ e, (Token.deploy 0).transfer 1 2 5 = Except.error e →
      e = TransferError.insufficientBalance ∧
      ∀ c, (applyTransfer (Token.deploy 0) 1 2 5).balanceOf c =
        (Token.deploy 0).balanceOf c) :=
  transfer_failure_spec (Token.deploy 0) (Reachable.deploy 0) 1 2 5

/-- C3: in every reachable state with `balanceOf from ≥ amount`, `transfer`
succeeds, debiting `from` by `amount` and crediting `to` by `amount` (net
zero change when `from = to`); concretely, from `totalSupply = 1000`
credited to the deployer, `transfer(owner, addr1, 50)` succeeds leaving
950/50 and a subsequent `transfer(addr1, addr2, 100)` fails leaving
`balanceOf addr1 = 50`. -/
theorem transfer_success_spec :
    (∀ t : Token, Reachable t → ∀ (s b : Address) (amt : Nat),
      amt ≤ t.balanceOf s →
      ∃ t', t.transfer s b amt = Except.ok t' ∧
        (s ≠ b → t'.balanceOf s = t.balanceOf s - amt ∧
          t'.balanceOf b = t.balanceOf b + amt) ∧
        (s = b → ∀ c, t'.balanceOf c = t.balanceOf c)) ∧
    ((Token.deploy 0).balanceOf 0 = 1000 ∧
      (Token.deploy 0).transfer 0 1 50 =
        Except.ok (Token.mk 1000 [(0, 950), (1, 50)]) ∧
      (Token.mk 1000 [(0, 950), (1, 50)]).balanceOf 0 = 950 ∧
      (Token.mk 1000 [(0, 950), (1, 50)]).balanceOf 1 = 50 ∧
      (Token.mk 1000 [(0, 950), (1, 50)]).transfer 1 2 100 =
        Except.error TransferError.insufficientBalance ∧
      (applyTransfer (Token.mk 1000 [(0, 950), (1, 50)]) 1 2 100).balanceOf 1
        = 50) := by
  constructor
  · intro t h s b amt hle
    have hsum := reachable_sum_lt t h
    simp only [Token.balanceOf] at hle
    obtain ⟨t', hok⟩ := transfer_ok_intro t s b amt hle hsum
    refine ⟨t', hok, ?_, ?_⟩
    · intro hsb
      constructor
      · rw [balanceOf_after_ok t t' s b amt hok s, if_neg hsb, if_pos rfl]
      · rw [balanceOf_after_ok t t' s b amt hok b, if_pos rfl,
          if_neg (fun hh => hsb hh.symm)]
    · intro hsb c
      subst hsb
      rw [balanceOf_after_ok t t' s s amt hok c]
      by_cases hc : c = s
      · rw [if_pos hc, if_pos rfl]
        subst hc
        simp only [Token.balanceOf]
        omega
      · rw [if_neg hc, if_neg hc]
  · refine ⟨by decide, by decide, by decide, by decide, by decide, by decide⟩

theorem transfer_success_spec_witness :
    ∃ t', (Token.deploy 0).transfer 0 1 50 = Except.ok t' ∧
      ((0 : Address) ≠ 1 →
        t'.balanceOf 0 = (Token.deploy 0).balanceOf 0 - 50 ∧
        t'.balanceOf 1 = (Token.deploy 0).balanceOf 1 + 50) ∧
      ((0 : Address) = 1 →
        ∀ c, t'.balanceOf c = (Token.deploy 0).balanceOf c) :=
  transfer_success_spec.1 (Token.deploy 0) (Reachable.deploy 0) 0 1 50
    (by decide)

/-- C4: in every state reachable from construction, no stored balance is
negative: `balanceOf a ≥ 0` for every account (balances are `uint`, so
this holds by representation). -/
theorem balances_nonneg (t : Token) (h : Reachable t) (a : Address) :
    0 ≤ (t.balanceOf a : Int) := by
  exact_mod_cast Nat.zero_le (t.balanceOf a)

theorem balances_nonneg_witness :
    0 ≤ ((Token.deploy 0).balanceOf 3 : Int) :=
  balances_nonneg (Token.deploy 0) (Reachable.deploy 0) 3

/-- C5: `totalSupply` is set to the fixed constant 1000 at construction
and no operation changes it: every successful or failed `transfer` leaves
it intact (and `balanceOf` is a pure function of the state), so it equals
the constant in every reachable state. -/
theorem totalSupply_constant :
    (∀ c : Address, (Token.deploy c).totalSupply = INITIAL_SUPPLY) ∧
    (∀ (t t' : Token) (s b : Address) (amt : Nat),
      t.transfer s b amt = Except.ok t' → t'.totalSupply = t.totalSupply) ∧
    (∀ (t : Token) (s b : Address) (amt : Nat),
      (applyTransfer t s b amt).totalSupply = t.totalSupply) ∧
    (∀ t : Token, Reachable t → t.totalSupply = INITIAL_SUPPLY) := by
  refine ⟨fun c => rfl, fun t t' s b amt h => totalSupply_transfer_ok t t' s b amt h, ?_, fun t h => (reachable_inv t h).1⟩
  intro t s b amt
  unfold applyTransfer
  cases hcall : t.transfer s b amt with
  | ok t' => exact totalSupply_transfer_ok t t' s b amt hcall
  | error e => rfl

theorem totalSupply_constant_witness :
    (Token.mk 1000 [(0, 950), (1, 50)]).totalSupply =
      (Token.deploy 0).totalSupply :=
  totalSupply_constant.2.1 (Token.deploy 0)
    (Token.mk 1000 [(0, 950), (1, 50)]) 0 1 50 (by decide)

/-- C6: `balanceOf` is a pure read (a function of the state with no
effects): it returns the stored balance of the account, and zero when the
account has no entry in the map. -/
theorem balanceOf_spec :
    (∀ (t : Token) (a : Address), a ∉ t.balances.map Prod.fst →
      t.balanceOf a = 0) ∧
    (∀ t : Token, (t.balances.map Prod.fst).Nodup →
      ∀ (a : Address) (v : Nat), (a, v) ∈ t.balances → t.balanceOf a = v) := by
  constructor
  · intro t a hmem
    exact lookupBal_eq_zero_of_not_mem t.balances a hmem
  · intro t hnd a v hmem
    exact lookupBal_eq_of_mem_nodup t.balances a v hmem hnd

theorem balanceOf_spec_witness :
    (Token.deploy 0).balanceOf 5 = 0 :=
  balanceOf_spec.1 (Token.deploy 0) 5 (by decide)

/-- C7: construction with a creator identity yields a ledger whose
`totalSupply` is the fixed constant 1000 and whose balance map has exactly
one entry, `creator ↦ totalSupply`; every other account reads zero. -/
theorem deploy_spec (c : Address) :
    (Token.deploy c).totalSupply = INITIAL_SUPPLY ∧
    (Token.deploy c).balances = [(c, INITIAL_SUPPLY)] ∧
    (Token.deploy c).balanceOf c = INITIAL_SUPPLY ∧
    (∀ a : Address, a ≠ c → (Token.deploy c).balanceOf a = 0) := by
  refine ⟨rfl, rfl, ?_, ?_⟩
  · simp [Token.deploy, Token.balanceOf, setBal, lookupBal]
  · intro a hac
    simp only [Token.deploy, Token.balanceOf, setBal, lookupBal]
    rw [if_neg (fun hh => hac hh.symm)]

theorem deploy_spec_witness :
    (Token.deploy 4).balanceOf 9 = 0 :=
  (deploy_spec 4).2.2.2 9 (by decide)

/-- C8: a self-transfer `transfer(a, a, amount)` with
`balanceOf a ≥ amount` succeeds (the precondition is checked against the
pre-transfer balance) and leaves every balance unchanged; only the
representability of the pre-balance as a `uint256` is assumed. -/
theorem self_transfer_spec (t : Token) (a : Address) (amt : Nat)
    (hle : amt ≤ t.balanceOf a) (hrep : t.balanceOf a < UINT_LIMIT) :
    ∃ t', t.transfer a a amt = Except.ok t' ∧
      ∀ c, t'.balanceOf c = t.balanceOf c := by
  simp only [Token.balanceOf] at hle hrep
  have hbound : lookupBal (setBal t.balances a (lookupBal t.balances a - amt))
      a + amt < UINT_LIMIT := by
    rw [lookupBal_setBal_same]
    omega
  have hok := (transfer_eq_ok_iff t _ a a amt).mpr ⟨hle, hbound, rfl⟩
  refine ⟨_, hok, ?_⟩
  intro c
  rw [balanceOf_after_ok t _ a a amt hok c]
  by_cases hc : c = a
  · rw [if_pos hc, if_pos rfl]
    subst hc
    simp only [Token.balanceOf]
    omega
  · rw [if_neg hc, if_neg hc]

theorem self_transfer_spec_witness :
    ∃ t', (Token.deploy 0).transfer 0 0 200 = Except.ok t' ∧
      ∀ c, t'.balanceOf c = (Token.deploy 0).balanceOf c :=
  self_transfer_spec (Token.deploy 0) 0 200 (by decide) (by decide)

/-- C9: a zero-amount transfer `transfer(a, b, 0)` always succeeds, even
when `balanceOf a = 0`, and changes no balance; only the representability
of the recipient balance as a `uint256` is assumed. -/
theorem zero_transfer_spec (t : Token) (a b : Address)
    (hrep : t.balanceOf b < UINT_LIMIT) :
    ∃ t', t.transfer a b 0 = Except.ok t' ∧
      ∀ c, t'.balanceOf c = t.balanceOf c := by
  simp only [Token.balanceOf] at hrep
  have hle : 0 ≤ lookupBal t.balances a := Nat.zero_le _
  have hb1 : lookupBal (setBal t.balances a (lookupBal t.balances a - 0)) b
      = lookupBal t.balances b := by
    by_cases hba : b = a
    · subst hba
      rw [lookupBal_setBal_same]
      omega
    · exact lookupBal_setBal_other _ a b _ (fun hh => hba hh.symm)
  have hbound : lookupBal (setBal t.balances a (lookupBal t.balances a - 0)) b
      + 0 < UINT_LIMIT := by
    rw [hb1]
    omega
  have hok := (transfer_eq_ok_iff t _ a b 0).mpr ⟨hle, hbound, rfl⟩
  refine ⟨_, hok, ?_⟩
  intro c
  rw [balanceOf_after_ok t _ a b 0 hok c]
  by_cases hcb : c = b
  · subst hcb
    rw [if_pos rfl]
    by_cases hba : c = a
    · subst hba
      rw [if_pos rfl]
      simp only [Token.balanceOf]
      omega
    · rw [if_neg hba]
      omega
  · rw [if_neg hcb]
    by_cases hca : c = a
    · subst hca
      rw [if_pos rfl]
      simp only [Token.balanceOf]
      omega
    · rw [if_neg hca]

theorem zero_transfer_spec_witness :
    ∃ t', (Token.deploy 0).transfer 3 4 0 = Except.ok t' ∧
      ∀ c, t'.balanceOf c = (Token.deploy 0).balanceOf c :=
  zero_transfer_spec (Token.deploy 0) 3 4 (by decide)

/-- C10: a successful `transfer(from, to, amount)` modifies at most the
balances of `from` and `to`: every account distinct from both reads the
same balance before and after the call. -/
theorem transfer_frame_spec (t t' : Token) (s b : Address) (amt : Nat)
    (h : t.transfer s b amt = Except.ok t') :
    ∀ c : Address, c ≠ s → c ≠ b → t'.balanceOf c = t.balanceOf c := by
  intro c hcs hcb
  rw [balanceOf_after_ok t t' s b amt h c, if_neg hcb, if_neg hcs]

theorem transfer_frame_spec_witness :
    (Token.mk 1000 [(0, 950), (1, 50)]).balanceOf 7 =
      (Token.deploy 0).balanceOf 7 :=
  transfer_frame_spec (Token.deploy 0) (Token.mk 1000 [(0, 950), (1, 50)])
    0 1 50 (by decide) 7 (by decide) (by decide)
